import Mathlib

/-!
Verification of the cubicli process-supervisor core: a shallow embedding of
the state store (`services/state.ts`), the static project/app configuration
(`config/projects.ts`), the port reconciler, and the process manager
(`services/process-manager.ts`), together with theorems about liveness
reconciliation, port derivation, log buffering and search.

OS effects (PID liveness probes, bind probes, spawned PIDs, clocks) are
modelled as explicit oracle parameters; JavaScript objects keyed by strings
are modelled as association lists updated in place.
-/

/-- Process status, from `ProcessInfo.status` in `services/state.ts`:
`'starting' | 'running' | 'stopped' | 'error'`. -/
inductive Status where
  | starting
  | running
  | stopped
  | error
deriving DecidableEq, Repr

/-- Record type `ProcessInfo` from `services/state.ts`: `{pid, port, status}`. -/
structure ProcessInfo where
  pid : Nat
  port : Nat
  status : Status
deriving DecidableEq, Repr

/-- State type `AppState` from `services/state.ts` (the flat, single-active-project
shape of the state module): `{activeProject, dopplerConfig, startedAt,
processes}`.  `processes` is a JS object keyed by app name, modelled as an
association list. -/
structure AppState where
  activeProject : Option String
  dopplerConfig : String
  startedAt : Option String
  processes : List (String × ProcessInfo)
deriving DecidableEq, Repr

/-- Constant `DEFAULT_STATE` from `services/state.ts`. -/
def DEFAULT_STATE : AppState :=
  { activeProject := none
    dopplerConfig := "dev"
    startedAt := none
    processes := [] }

/-- JS truthiness of a nullable string: `null` and `''` are falsy, every
other string is truthy.  `verifyRunningProcesses` guards the project-drop
branch with `if (allStopped && state.activeProject)`. -/
def truthyStr : Option String → Bool
  | none => false
  | some s => !(s == "")

/-- The demotion loop of `verifyRunningProcesses`: for each entry of
`state.processes`, `if (info.status !== 'stopped' && !isProcessRunning(info.pid))`
replace the record with `{ ...info, status: 'stopped' }`.  The OS liveness
probe `isProcessRunning` is the oracle `alive`. -/
def demoteDead (alive : Nat → Bool) (procs : List (String × ProcessInfo)) :
    List (String × ProcessInfo) :=
  procs.map (fun p =>
    if p.2.status != Status.stopped && !(alive p.2.pid) then
      (p.1, { p.2 with status := Status.stopped })
    else p)

/-- Function `verifyRunningProcesses` from `services/state.ts`: load the state,
demote every non-stopped record whose PID is dead to `stopped`, and if all
processes are then `stopped` and there is an active project, clear
`activeProject`, `startedAt` and `processes`.  The (possibly) updated state
is saved and returned; we model the load/save pair as a pure function on the
persisted state. -/
def verifyRunningProcesses (alive : Nat → Bool) (st : AppState) : AppState :=
  let procs := demoteDead alive st.processes
  let allStopped := procs.all (fun p => p.2.status == Status.stopped)
  if allStopped && truthyStr st.activeProject then
    { st with activeProject := none, startedAt := none, processes := [] }
  else
    { st with processes := procs }

/-- The fields a JSON state document may carry.  `JSON.parse` of the state
file yields an object whose fields may each be present or absent; the outer
`Option` is presence in the document (`{ ...DEFAULT_STATE, ...JSON.parse(content) }`
only overrides fields the document actually has). -/
structure ParsedStateDoc where
  activeProject : Option (Option String)
  dopplerConfig : Option String
  startedAt : Option (Option String)
  processes : Option (List (String × ProcessInfo))
deriving DecidableEq, Repr

/-- The possible outcomes of reading the state file in `loadState`:
the file does not exist (`existsSync` false), `readFile` throws,
`JSON.parse` throws, or parsing succeeds with some document. -/
inductive StateFileRead where
  | missing
  | readError
  | parseError
  | ok (doc : ParsedStateDoc)
deriving DecidableEq

/-- Function `loadState` from `services/state.ts`: if the file is missing return a
copy of `DEFAULT_STATE`; any read or parse error is caught and also yields
`DEFAULT_STATE`; on success return `{ ...DEFAULT_STATE, ...JSON.parse(content) }`,
i.e. each field of the document overrides the default when present.  The
function is total (returns `AppState`, not an error): `loadState` never
raises. -/
def loadState : StateFileRead → AppState
  | .missing => DEFAULT_STATE
  | .readError => DEFAULT_STATE
  | .parseError => DEFAULT_STATE
  | .ok doc =>
    { activeProject := doc.activeProject.getD DEFAULT_STATE.activeProject
      dopplerConfig := doc.dopplerConfig.getD DEFAULT_STATE.dopplerConfig
      startedAt := doc.startedAt.getD DEFAULT_STATE.startedAt
      processes := doc.processes.getD DEFAULT_STATE.processes }

/-- Record type `Project` from `config/projects.ts`. -/
structure Project where
  name : String
  «alias» : String
  path : String
  index : Nat
deriving DecidableEq, Repr

/-- Record type `AppConfig` from `config/projects.ts`. -/
structure AppConfig where
  name : String
  basePort : Nat
  command : String
  portEnvVar : String
  hostEnvVar : String
deriving DecidableEq, Repr

/-- Constant `PORT_OFFSET` from `config/projects.ts`. -/
def PORT_OFFSET : Nat := 100

/-- Constant `PROJECTS` from `config/projects.ts`. -/
def PROJECTS : List Project :=
  [ { name := "cubic", «alias» := "cubic",
      path := "/Users/guypinchuk/Projects/cubic", index := 0 },
    { name := "cubic-alt", «alias» := "alt",
      path := "/Users/guypinchuk/Projects/cubic-alt", index := 1 },
    { name := "cubic-alt-2", «alias» := "alt-2",
      path := "/Users/guypinchuk/Projects/cubic-alt-2", index := 2 } ]

/-- Constant `APPS` from `config/projects.ts`. -/
def APPS : List AppConfig :=
  [ { name := "api", basePort := 5555, command := "nx serve api",
      portEnvVar := "MICROSERVICE_API_PORT", hostEnvVar := "MICROSERVICE_API_HOST" },
    { name := "client-app", basePort := 4200, command := "nx serve client-app",
      portEnvVar := "MICROSERVICE_CLIENT_APP_PORT", hostEnvVar := "MICROSERVICE_CLIENT_APP_HOST" },
    { name := "mycelium", basePort := 4201, command := "nx serve mycelium",
      portEnvVar := "MICROSERVICE_MYCELIUM_PORT", hostEnvVar := "MICROSERVICE_MYCELIUM_HOST" } ]

/-- Function `getPortForApp` from `config/projects.ts`:
`actualPort = basePort + (projectIndex × PORT_OFFSET)`. -/
def getPortForApp (app : AppConfig) (project : Project) : Nat :=
  app.basePort + project.index * PORT_OFFSET

/-- Function `getProjectPorts` from `config/projects.ts`. -/
def getProjectPorts (project : Project) : List Nat :=
  APPS.map (fun app => getPortForApp app project)

/-- Outcome of one call to `ensurePortsAvailable` in `services/state.ts`:
either some retry round found every port free (and the function returned
early from inside the loop), or all rounds were exhausted (and the function
falls through the loop and still returns — the final comment in the source
reads "We'll log a warning but continue anyway").  There is no error
constructor: the function never raises. -/
inductive EnsureResult where
  | freed (round : Nat)
  | exhausted
deriving DecidableEq, Repr

/-- The per-round verification step of `ensurePortsAvailable`: every port in
the list passes the bind-probe `isPortActuallyFree` (an actual
`Bun.serve`-bind-and-release, not a socket-table query).  The probe outcome
may change between rounds (processes are killed each round), so the oracle
`probe` takes the round number. -/
def allPortsFree (probe : Nat → Nat → Bool) (round : Nat) (ports : List Nat) : Bool :=
  ports.all (fun port => probe round port)

/-- The retry loop of `ensurePortsAvailable`: in each round, kill the
processes on every port (an OS effect, absorbed into the round-indexed
`probe` oracle), then check every port with the bind probe; return early
when all are free, otherwise continue to the next round until the fuel
(`maxRetries`) is spent. -/
def ensureLoop (probe : Nat → Nat → Bool) (ports : List Nat) :
    Nat → Nat → EnsureResult
  | _, 0 => .exhausted
  | round, fuel + 1 =>
    if allPortsFree probe round ports then .freed round
    else ensureLoop probe ports (round + 1) fuel

/-- Constant `maxRetries` from `ensurePortsAvailable` in `services/state.ts`. -/
def maxRetries : Nat := 5

/-- Function `ensurePortsAvailable` from `services/state.ts`: up to `maxRetries = 5`
rounds of kill-then-bind-probe; returns early only from a round in which
every port passed the probe, and returns normally (result `exhausted`)
when all rounds fail. -/
def ensurePortsAvailable (probe : Nat → Nat → Bool) (ports : List Nat) : EnsureResult :=
  ensureLoop probe ports 0 maxRetries

/-- JS object key assignment `obj[k] = v` on an association list: if the key
is present, every binding of that key is overwritten in place (the first
binding is the one `lookup` sees); otherwise the binding is appended. -/
def setAssoc {α β : Type} [BEq α] (l : List (α × β)) (k : α) (v : β) :
    List (α × β) :=
  if l.any (fun p => p.1 == k) then
    l.map (fun p => if p.1 == k then (k, v) else p)
  else
    l ++ [(k, v)]

/-- JS `delete obj[k]` / `Map.delete(k)` on an association list. -/
def eraseAssoc {α β : Type} [BEq α] (l : List (α × β)) (k : α) : List (α × β) :=
  l.filter (fun p => !(p.1 == k))

/-- Constant `MAX_LOG_LINES` from `services/process-manager.ts`. -/
def MAX_LOG_LINES : Nat := 10000

/-- Record type `LogBuffer` from `services/process-manager.ts`:
`{ lines: string[]; searchMatches: number[] }`. -/
structure LogBuffer where
  lines : List String
  searchMatches : List Int
deriving DecidableEq, Repr

/-- The fresh buffer `{ lines: [], searchMatches: [] }` used as the default
by `getLogBuffer`, by `clearLogBuffer` and by `addLogLine`'s get-or-create. -/
def emptyLogBuffer : LogBuffer :=
  { lines := [], searchMatches := [] }

/-- Function `makeLogKey` from `services/process-manager.ts`:
`` `${projectAlias}:${appName}` ``. -/
def makeLogKey (projectAlias appName : String) : String :=
  projectAlias ++ ":" ++ appName

/-- Function `getLogFilePath` from `services/process-manager.ts`:
`` `${LOG_DIR}/${projectAlias}-${appName}.log` ``.  The constant
`LOG_DIR ++ "/"` prefix shared by every path is dropped: prefixing all keys
of a keyed store by one fixed string preserves key equality and inequality,
so the store behaviour is unchanged. -/
def getLogFilePath (projectAlias appName : String) : String :=
  projectAlias ++ "-" ++ appName ++ ".log"

/-- The core of `addLogLine` from `services/process-manager.ts`: push the
line, then `if (buffer.lines.length > MAX_LOG_LINES) { buffer.lines.shift();
didShift = true; }` — `shift()` removes the first (oldest) element.  Returns
the updated buffer and `didShift`, the eviction flag that `addLogLine` both
returns and passes to the registered `onLogUpdate` callback.  (The
surrounding code — get-or-create of the buffer, the fire-and-forget file
append, the callback invocation — does not touch `lines` or the flag.) -/
def addLogLine (buffer : LogBuffer) (line : String) : LogBuffer × Bool :=
  let lines := buffer.lines ++ [line]
  if lines.length > MAX_LOG_LINES then
    ({ buffer with lines := lines.drop 1 }, true)
  else
    ({ buffer with lines := lines }, false)

/-- Function `getLogBuffer` from `services/process-manager.ts`:
`this.logBuffers.get(key) || { lines: [], searchMatches: [] }`.  Total: a
missing key yields the empty buffer, never `null`/`undefined`, and nothing
can throw. -/
def getLogBuffer (logBuffers : List (String × LogBuffer))
    (projectAlias appName : String) : LogBuffer :=
  (logBuffers.lookup (makeLogKey projectAlias appName)).getD emptyLogBuffer

/-- Function `clearLogBuffer` from `services/process-manager.ts`: reset the pair's
in-memory buffer to `{ lines: [], searchMatches: [] }` and write the empty
string to the pair's log file (`writeFile(path, '')`, fire-and-forget with
errors ignored).  The state is the pair (in-memory buffers keyed by
`makeLogKey`, file contents keyed by `getLogFilePath`). -/
def clearLogBuffer (logBuffers : List (String × LogBuffer))
    (logFiles : List (String × String)) (projectAlias appName : String) :
    List (String × LogBuffer) × List (String × String) :=
  (setAssoc logBuffers (makeLogKey projectAlias appName) emptyLogBuffer,
   setAssoc logFiles (getLogFilePath projectAlias appName) "")

/-- The log-clearing phase of `startProject` in `services/process-manager.ts`:
`for (const app of APPS) { this.clearLogBuffer(project.alias, app.name); }`. -/
def startProjectClears (logBuffers : List (String × LogBuffer))
    (logFiles : List (String × String)) (projectAlias : String) :
    List (String × LogBuffer) × List (String × String) :=
  APPS.foldl (fun acc app => clearLogBuffer acc.1 acc.2 projectAlias app.name)
    (logBuffers, logFiles)

/-- Record type `ProjectState` as used by `services/process-manager.ts`
(`{dopplerConfig, startedAt, processes}`): created in `startProject` /
`restartApp`, its `processes` object is keyed by app name.  The type is
declared in the state module and reflected here from its uses in
`process-manager.ts` and the persisted-state layout in the spec. -/
structure ProjectState where
  dopplerConfig : String
  startedAt : Option String
  processes : List (String × ProcessInfo)
deriving DecidableEq, Repr

/-- The persisted state as seen by `services/process-manager.ts`
(`state.activeProjects[alias]`), the multi-project shape of the state
module: `{defaultConfig, activeProjects}`.  Named `AppStateV2` because the
flat single-project shape above already carries the source name
`AppState`. -/
structure AppStateV2 where
  defaultConfig : String
  activeProjects : List (String × ProjectState)
deriving DecidableEq, Repr

/-- The exit continuation registered by `startApp` in
`services/process-manager.ts` (`proc.exited.then(async (code) => ...)`):
re-load the persisted state (here: the function's `currentState` argument,
which is whatever the state file holds at exit time, not the state captured
at spawn), and if the project and the app's record still exist, set the
record's status to `stopped` when the exit code is `0` and to `error`
otherwise, then save.  When the record no longer exists nothing is written. -/
def exitHandler (code : Int) (projectAlias appName : String)
    (currentState : AppStateV2) : AppStateV2 :=
  match currentState.activeProjects.lookup projectAlias with
  | none => currentState
  | some pState =>
    match pState.processes.lookup appName with
    | none => currentState
    | some info =>
      { currentState with
          activeProjects :=
            setAssoc currentState.activeProjects projectAlias
              { pState with
                  processes :=
                    setAssoc pState.processes appName
                      { info with
                          status := if code == 0 then Status.stopped else Status.error } } }

/-- The in-memory handle removal the exit continuation performs in every
case: `this.processes.get(project.alias)?.delete(app.name)`.  The nested
`Map` of subprocess handles is modelled as an association list of
association lists, a handle being its PID. -/
def removeHandle (processes : List (String × List (String × Nat)))
    (projectAlias appName : String) : List (String × List (String × Nat)) :=
  processes.map (fun e =>
    if e.1 == projectAlias then (e.1, eraseAssoc e.2 appName) else e)

/-- Observable operations of `startProject` in `services/process-manager.ts`,
in program order: the port reconciliation, the nx-daemon reset, the per-app
log-buffer clears, each spawn (which also writes the `{pid, port,
status: 'starting'}` record into the in-memory `projectState`), and each
`saveState` (which makes its argument the new durable state). -/
inductive Event where
  | ensurePorts (ports : List Nat)
  | resetNx (path : String)
  | clearLog (projectAlias appName : String)
  | spawn (projectAlias appName : String) (pid : Nat) (port : Nat)
  | save (st : AppStateV2)
deriving DecidableEq, Repr

/-- One iteration of the `for (const app of APPS) { await this.startApp(...) }`
loop: spawn the app's command (the OS assigns the PID — oracle `pids`) and
record `{pid, port, status: 'starting'}` in the in-memory `projectState`
object.  No `saveState` happens here: `startApp` only mutates the
`projectState` it was handed. -/
def startAppStep (pids : String → Nat) (project : Project)
    (acc : List Event × List (String × ProcessInfo)) (app : AppConfig) :
    List Event × List (String × ProcessInfo) :=
  let port := getPortForApp app project
  let pid := pids app.name
  (acc.1 ++ [Event.spawn project.«alias» app.name pid port],
   setAssoc acc.2 app.name { pid := pid, port := port, status := Status.starting })

/-- Function `startProject` from `services/process-manager.ts` as an event trace plus
the state it finally saves: `ensurePortsAvailable(getProjectPorts(project))`;
`resetNxDaemon(project.path)`; `clearLogBuffer` for every app; `loadState()`
(yielding `st`); build a fresh `projectState`; `startApp` for each app in
`APPS`; then `state.activeProjects[project.alias] = projectState` and a
single `saveState(state)`. -/
def startProjectTrace (pids : String → Nat) (project : Project)
    (dopplerConfig : String) (startedAt : Option String) (st : AppStateV2) :
    List Event × AppStateV2 :=
  let pre := [Event.ensurePorts (getProjectPorts project), Event.resetNx project.path]
  let clears := APPS.map (fun app => Event.clearLog project.«alias» app.name)
  let spawned := APPS.foldl (startAppStep pids project) ([], [])
  let pState : ProjectState :=
    { dopplerConfig := dopplerConfig, startedAt := startedAt, processes := spawned.2 }
  let st2 : AppStateV2 :=
    { st with activeProjects := setAssoc st.activeProjects project.«alias» pState }
  (pre ++ clears ++ spawned.1 ++ [Event.save st2], st2)

/-- Whether the durable state holds the record `{pid, port, status: 'starting'}`
for the given app of the given project. -/
def hasStartingRecord (st : AppStateV2) (projectAlias appName : String)
    (pid port : Nat) : Bool :=
  ((st.activeProjects.lookup projectAlias).bind
      (fun pState => pState.processes.lookup appName))
    == some { pid := pid, port := port, status := Status.starting }

/-- How an event changes the durable (persisted) state: only `saveState`
writes; everything else leaves the state file untouched. -/
def applyEvent (persisted : AppStateV2) : Event → AppStateV2
  | .save st => st
  | _ => persisted

/-- The claim "every mutation is written to durable storage immediately":
right after each spawn operation (before the next operation runs, so before
any concurrent stop could load the state), the durable state already holds
that app's `{pid, port, status: 'starting'}` record. -/
def spawnsPersistedImmediately (persisted : AppStateV2) : List Event → Bool
  | [] => true
  | e :: rest =>
    (match e with
     | .spawn a n pid port => hasStartingRecord (applyEvent persisted e) a n pid port
     | _ => true) && spawnsPersistedImmediately (applyEvent persisted e) rest

/-- Recognizer for `saveState` events. -/
def isSave : Event → Bool
  | .save _ => true
  | _ => false

/-- Recognizer for spawn events. -/
def isSpawn : Event → Bool
  | .spawn _ _ _ _ => true
  | _ => false

/-- Recognizer for log-clear events. -/
def isClear : Event → Bool
  | .clearLog _ _ => true
  | _ => false

/-- No `clearLogBuffer` happens after any spawn: every log clear precedes
every spawn in the trace. -/
def noClearAfterSpawn : List Event → Bool
  | [] => true
  | e :: rest =>
    if isSpawn e then rest.all (fun x => !isClear x) && noClearAfterSpawn rest
    else noClearAfterSpawn rest

/-- One-pass scanner equivalent to `stripAnsi`'s regex
`/\x1b\[[0-9;]*m/g` (`str.replace(..., '')`): in `normal` mode characters
are copied; `ESC` enters `sawEsc`; `ESC [` enters `body`, which consumes a
run of `[0-9;]`; a closing `m` drops the whole escape sequence, while any
other character means the regex does not match at that `ESC`, so the
buffered characters are emitted and scanning resumes at the offending
character (no character between the `ESC` and the failure point can start a
match, because only `ESC` can).  Structural recursion on the text makes the
function kernel-reducible. -/
inductive AnsiMode where
  | normal
  | sawEsc
  | body (buf : List Char)

/-- The scanner loop for `stripAnsi` (see `AnsiMode`). -/
def stripAnsiGo : AnsiMode → List Char → List Char
  | .normal, [] => []
  | .normal, c :: cs =>
    if c = '\x1b' then stripAnsiGo .sawEsc cs else c :: stripAnsiGo .normal cs
  | .sawEsc, [] => ['\x1b']
  | .sawEsc, c :: cs =>
    if c = '[' then stripAnsiGo (.body ['\x1b', '[']) cs
    else '\x1b' :: (if c = '\x1b' then stripAnsiGo .sawEsc cs
      else c :: stripAnsiGo .normal cs)
  | .body buf, [] => buf
  | .body buf, c :: cs =>
    if c = 'm' then stripAnsiGo .normal cs
    else if c.isDigit || c = ';' then stripAnsiGo (.body (buf ++ [c])) cs
    else buf ++ (if c = '\x1b' then stripAnsiGo .sawEsc cs
      else c :: stripAnsiGo .normal cs)

/-- Function `stripAnsi` from `ui/renderer.ts`. -/
def stripAnsi (s : String) : String :=
  ⟨stripAnsiGo .normal s.data⟩

/-- JS `String.prototype.toLowerCase`, restricted to the per-character ASCII
lowering `Char.toLower`, on which the two agree for all the strings this
development manipulates. -/
def toLowerCase (s : String) : String :=
  ⟨s.data.map Char.toLower⟩

/-- JS `String.prototype.includes` on character lists: `needle` occurs as a
contiguous substring of the remaining text (an empty needle always
matches). -/
def charsContains (needle : List Char) : List Char → Bool
  | [] => needle.isPrefixOf []
  | c :: t => needle.isPrefixOf (c :: t) || charsContains needle t

/-- JS `hay.includes(needle)`. -/
def includesStr (hay needle : String) : Bool :=
  charsContains needle.data hay.data

/-- Function `performSearch` from `ui/app.ts`, as a function of the current buffer
lines and the search query: lower-case the query; an empty (falsy) query
yields no matches; otherwise
`buffer.lines.map((line, idx) => stripAnsi(line).toLowerCase().includes(query) ? idx : -1).filter(idx => idx >= 0)`. -/
def performSearch (bufferLines : List String) (searchQuery : String) : List Int :=
  let query := toLowerCase searchQuery
  if query == "" then []
  else
    (bufferLines.enum.map (fun p =>
        if includesStr (toLowerCase (stripAnsi p.2)) query then (p.1 : Int)
        else (-1 : Int))).filter
      (fun idx => decide (idx ≥ 0))

theorem ensureLoop_freed_spec (probe : Nat → Nat → Bool) (ports : List Nat) :
    ∀ (fuel round r : Nat), ensureLoop probe ports round fuel = .freed r →
      round ≤ r ∧ r < round + fuel ∧ allPortsFree probe r ports = true ∧
        ∀ r', round ≤ r' → r' < r → allPortsFree probe r' ports = false := by
  intro fuel
  induction fuel with
  | zero => intro round r h; simp [ensureLoop] at h
  | succ n ih =>
    intro round r h
    simp only [ensureLoop] at h
    split at h
    · next hfree =>
      cases h
      exact ⟨Nat.le_refl _, by omega, hfree, fun r' h1 h2 => absurd h1 (by omega)⟩
    · next hfree =>
      obtain ⟨h1, h2, h3, h4⟩ := ih (round + 1) r h
      refine ⟨by omega, by omega, h3, fun r' hr1 hr2 => ?_⟩
      rcases Nat.eq_or_lt_of_le hr1 with heq | hlt
      · subst heq; exact Bool.eq_false_iff.mpr hfree
      · exact h4 r' hlt hr2

theorem ensureLoop_exhausted_spec (probe : Nat → Nat → Bool) (ports : List Nat) :
    ∀ (fuel round : Nat), ensureLoop probe ports round fuel = .exhausted →
      ∀ r', round ≤ r' → r' < round + fuel → allPortsFree probe r' ports = false := by
  intro fuel
  induction fuel with
  | zero => intro round _ r' h1 h2; omega
  | succ n ih =>
    intro round h r' h1 h2
    simp only [ensureLoop] at h
    split at h
    · cases h
    · next hfree =>
      rcases Nat.eq_or_lt_of_le h1 with heq | hlt
      · subst heq; exact Bool.eq_false_iff.mpr hfree
      · exact ih (round + 1) h r' hlt (by omega)

/-- C3: `ensurePortsAvailable` performs at most `maxRetries = 5` rounds and
always returns (its result type has no failure constructor and it is a total
function, reflecting that the source neither throws nor loops unboundedly).
It returns early with `freed r` only when round `r < 5` is one in which every
port in the set passed the bind-probe check `isPortActuallyFree` (and every
earlier round had some port fail the probe); when all 5 rounds fail, the
result is `exhausted` — the function still returns, so the caller proceeds
best-effort, and conversely `exhausted` means each of the 5 rounds had a
port that failed the probe. -/
theorem cubicli_C3_ensurePorts_bounded_retries (probe : Nat → Nat → Bool) (ports : List Nat) :
    (∀ r, ensurePortsAvailable probe ports = .freed r →
        r < maxRetries ∧ allPortsFree probe r ports = true ∧
          ∀ r' < r, allPortsFree probe r' ports = false)
    ∧ (ensurePortsAvailable probe ports = .exhausted →
        ∀ r < maxRetries, allPortsFree probe r ports = false) := by
  constructor
  · intro r h
    obtain ⟨_, h2, h3, h4⟩ := ensureLoop_freed_spec probe ports maxRetries 0 r h
    exact ⟨by omega, h3, fun r' hr => h4 r' (Nat.zero_le _) hr⟩
  · intro h r hr
    exact ensureLoop_exhausted_spec probe ports maxRetries 0 h r (Nat.zero_le _) (by omega)

theorem cubicli_C3_witness :
    (0 < maxRetries ∧ allPortsFree (fun _ _ => true) 0 [5555] = true ∧
      ∀ r' < 0, allPortsFree (fun _ _ => true) r' [5555] = false)
    ∧ (∀ r < maxRetries, allPortsFree (fun _ _ => false) r [5555] = false) :=
  ⟨(cubicli_C3_ensurePorts_bounded_retries (fun _ _ => true) [5555]).1 0 (by decide),
   (cubicli_C3_ensurePorts_bounded_retries (fun _ _ => false) [5555]).2 (by decide)⟩

/-- C2: the resolved port is the deterministic function
`basePort + projectIndex * 100`; for a fixed app it is injective in the
project index, and across the nine configured (app, project) pairs —
base ports 5555/4200/4201 and project indices 0/1/2 — all resolved ports
are pairwise distinct. -/
theorem cubicli_C2_port_injectivity :
    (∀ (app : AppConfig) (p q : Project), p.index ≠ q.index →
        getPortForApp app p ≠ getPortForApp app q)
    ∧ (PROJECTS.flatMap (fun p => APPS.map (fun a => getPortForApp a p))).Nodup := by
  constructor
  · intro app p q hne h
    simp only [getPortForApp, PORT_OFFSET] at h
    omega
  · decide

theorem cubicli_C2_witness :
    getPortForApp
        { name := "api", basePort := 5555, command := "nx serve api",
          portEnvVar := "MICROSERVICE_API_PORT", hostEnvVar := "MICROSERVICE_API_HOST" }
        { name := "cubic", «alias» := "cubic",
          path := "/Users/guypinchuk/Projects/cubic", index := 0 }
      ≠ getPortForApp
        { name := "api", basePort := 5555, command := "nx serve api",
          portEnvVar := "MICROSERVICE_API_PORT", hostEnvVar := "MICROSERVICE_API_HOST" }
        { name := "cubic-alt", «alias» := "alt",
          path := "/Users/guypinchuk/Projects/cubic-alt", index := 1 } :=
  cubicli_C2_port_injectivity.1 _ _ _ (by decide)

/-- C7: `loadState` never raises (it is total into `AppState`): a missing
state file yields the default state, a read or parse error is caught and
also yields the default state, and a successful parse is merged over
`DEFAULT_STATE` field by field, so every field missing from the document
takes its default value and every present field overrides it. -/
theorem cubicli_C7_loadState_fallback :
    loadState .missing = DEFAULT_STATE
    ∧ loadState .readError = DEFAULT_STATE
    ∧ loadState .parseError = DEFAULT_STATE
    ∧ ∀ doc : ParsedStateDoc,
        ((doc.activeProject = none →
            (loadState (.ok doc)).activeProject = DEFAULT_STATE.activeProject)
          ∧ ∀ v, doc.activeProject = some v → (loadState (.ok doc)).activeProject = v)
        ∧ ((doc.dopplerConfig = none →
            (loadState (.ok doc)).dopplerConfig = DEFAULT_STATE.dopplerConfig)
          ∧ ∀ v, doc.dopplerConfig = some v → (loadState (.ok doc)).dopplerConfig = v)
        ∧ ((doc.startedAt = none →
            (loadState (.ok doc)).startedAt = DEFAULT_STATE.startedAt)
          ∧ ∀ v, doc.startedAt = some v → (loadState (.ok doc)).startedAt = v)
        ∧ ((doc.processes = none →
            (loadState (.ok doc)).processes = DEFAULT_STATE.processes)
          ∧ ∀ v, doc.processes = some v → (loadState (.ok doc)).processes = v) := by
  refine ⟨rfl, rfl, rfl, fun doc => ?_⟩
  refine ⟨⟨fun h => ?_, fun v h => ?_⟩, ⟨fun h => ?_, fun v h => ?_⟩,
          ⟨fun h => ?_, fun v h => ?_⟩, ⟨fun h => ?_, fun v h => ?_⟩⟩ <;>
    simp [loadState, h]

theorem cubicli_C7_witness :
    (loadState (.ok ⟨none, none, none, none⟩)).activeProject
        = DEFAULT_STATE.activeProject
    ∧ (loadState (.ok ⟨some (some "cubic"), none, none, none⟩)).activeProject
        = some "cubic" :=
  ⟨(cubicli_C7_loadState_fallback.2.2.2 _).1.1 rfl,
   (cubicli_C7_loadState_fallback.2.2.2 _).1.2 (some "cubic") rfl⟩

/-- C10: `getLogBuffer` is total at the public interface: for every
(projectAlias, appName) pair it returns a `LogBuffer` value (the return type
rules out `null`/`undefined` and there is nothing to throw) — the stored
buffer when the key is present, and the empty buffer
`{ lines: [], searchMatches: [] }` when no buffer was ever stored for that
pair. -/
theorem cubicli_C10_getLogBuffer_total (logBuffers : List (String × LogBuffer))
    (projectAlias appName : String) :
    (logBuffers.lookup (makeLogKey projectAlias appName) = none →
        getLogBuffer logBuffers projectAlias appName = emptyLogBuffer)
    ∧ ∀ b, logBuffers.lookup (makeLogKey projectAlias appName) = some b →
        getLogBuffer logBuffers projectAlias appName = b := by
  constructor
  · intro h; simp [getLogBuffer, h]
  · intro b h; simp [getLogBuffer, h]

theorem cubicli_C10_witness :
    getLogBuffer [] "cubic" "api" = emptyLogBuffer :=
  (cubicli_C10_getLogBuffer_total [] "cubic" "api").1 rfl

theorem verifyRunningProcesses_eq (alive : Nat → Bool) (st : AppState) :
    verifyRunningProcesses alive st =
      if ((demoteDead alive st.processes).all (fun p => p.2.status == Status.stopped)
            && truthyStr st.activeProject) then
        { st with activeProject := none, startedAt := none, processes := [] }
      else
        { st with processes := demoteDead alive st.processes } := rfl

theorem demoteDead_get (alive : Nat → Bool) (procs : List (String × ProcessInfo))
    (i : Nat) (hi : i < procs.length) (hi2 : i < (demoteDead alive procs).length) :
    (demoteDead alive procs).get ⟨i, hi2⟩ =
      if (procs.get ⟨i, hi⟩).2.status != Status.stopped
          && !(alive (procs.get ⟨i, hi⟩).2.pid) then
        ((procs.get ⟨i, hi⟩).1, { (procs.get ⟨i, hi⟩).2 with status := Status.stopped })
      else procs.get ⟨i, hi⟩ := by
  simp [demoteDead, List.get_eq_getElem, List.getElem_map]

/-- C1: liveness reconciliation.  After `verifyRunningProcesses`,
(i) no record left in the state is `running` or `starting` with a dead PID;
(ii) if after demotion every process is `stopped` (and there is an active
project — JS truthiness of `state.activeProject`), the runtime entry is
dropped entirely: `activeProject` and `startedAt` are nulled and
`processes` emptied;
(iii) otherwise the process table keeps its length, records with live PIDs
are kept unchanged (status included), and every record with a dead PID ends
up with status `stopped` and its name/pid/port unchanged. -/
theorem cubicli_C1_liveness_reconciliation (alive : Nat → Bool) (st : AppState) :
    (∀ p ∈ (verifyRunningProcesses alive st).processes,
        (p.2.status = Status.running ∨ p.2.status = Status.starting) →
          alive p.2.pid = true)
    ∧ ((demoteDead alive st.processes).all (fun p => p.2.status == Status.stopped) = true →
        truthyStr st.activeProject = true →
          (verifyRunningProcesses alive st).activeProject = none
          ∧ (verifyRunningProcesses alive st).startedAt = none
          ∧ (verifyRunningProcesses alive st).processes = [])
    ∧ (((demoteDead alive st.processes).all (fun p => p.2.status == Status.stopped)
          && truthyStr st.activeProject) = false →
        (verifyRunningProcesses alive st).processes.length = st.processes.length
        ∧ ∀ i (hi : i < st.processes.length)
            (hi' : i < (verifyRunningProcesses alive st).processes.length),
            (alive (st.processes.get ⟨i, hi⟩).2.pid = true →
              (verifyRunningProcesses alive st).processes.get ⟨i, hi'⟩
                = st.processes.get ⟨i, hi⟩)
            ∧ (alive (st.processes.get ⟨i, hi⟩).2.pid = false →
              (verifyRunningProcesses alive st).processes.get ⟨i, hi'⟩
                = ((st.processes.get ⟨i, hi⟩).1,
                   { (st.processes.get ⟨i, hi⟩).2 with status := Status.stopped }))) := by
  refine ⟨?_, ?_, ?_⟩
  · intro p hp hstat
    rw [verifyRunningProcesses_eq] at hp
    split at hp
    · simp at hp
    · simp only [demoteDead, List.mem_map] at hp
      obtain ⟨q, hq, rfl⟩ := hp
      cases hs : q.2.status <;> cases ha : alive q.2.pid <;>
        simp_all [bne]
  · intro hall htruthy
    rw [verifyRunningProcesses_eq, if_pos (by rw [hall, htruthy]; rfl)]
    exact ⟨rfl, rfl, rfl⟩
  · intro hc
    rw [verifyRunningProcesses_eq, if_neg (by simp [hc])]
    refine ⟨by simp [demoteDead], ?_⟩
    intro i hi hi'
    have hi2 : i < (demoteDead alive st.processes).length := by
      simpa [demoteDead] using hi
    have hstep := demoteDead_get alive st.processes i hi hi2
    constructor
    · intro ha
      show (demoteDead alive st.processes).get ⟨i, hi2⟩ = _
      rw [hstep, ha]
      simp
    · intro ha
      show (demoteDead alive st.processes).get ⟨i, hi2⟩ = _
      rw [hstep]
      rcases hq : st.processes.get ⟨i, hi⟩ with ⟨n, pd, pt, stt⟩
      rw [hq] at ha
      cases stt <;> simp [bne, ha]

theorem cubicli_C1_witness :
    (verifyRunningProcesses (fun _ => false)
        ⟨some "cubic", "dev", some "2026-01-01", [("api", ⟨42, 5555, Status.running⟩)]⟩).activeProject
        = none
    ∧ (verifyRunningProcesses (fun _ => false)
        ⟨some "cubic", "dev", some "2026-01-01", [("api", ⟨42, 5555, Status.running⟩)]⟩).processes
        = [] := by
  have h := (cubicli_C1_liveness_reconciliation (fun _ => false)
    ⟨some "cubic", "dev", some "2026-01-01", [("api", ⟨42, 5555, Status.running⟩)]⟩).2.1
    (by decide) (by decide)
  exact ⟨h.1, h.2.2⟩

/-- C5: the log ring buffer.  For a buffer within capacity
(`MAX_LOG_LINES = 10000` — which covers every reachable buffer: they start
empty, are seeded from at most the last 10000 file lines, or are cleared),
one `addLogLine` call (i) keeps the line count at most the capacity;
(ii) reports `didShift = true` exactly when the push made the count pass
the capacity; (iii) on eviction drops exactly the single oldest line (the
front) and appends the new one; (iv) without eviction only appends; and
(v) any sequence of calls folded over such a buffer keeps the count within
capacity after every call. -/
theorem cubicli_C5_log_buffer_capacity (buffer : LogBuffer) (line : String) :
    (buffer.lines.length ≤ MAX_LOG_LINES →
        (addLogLine buffer line).1.lines.length ≤ MAX_LOG_LINES)
    ∧ ((addLogLine buffer line).2 = true ↔ buffer.lines.length + 1 > MAX_LOG_LINES)
    ∧ ((addLogLine buffer line).2 = true →
        (addLogLine buffer line).1.lines = buffer.lines.tail ++ [line])
    ∧ ((addLogLine buffer line).2 = false →
        (addLogLine buffer line).1.lines = buffer.lines ++ [line])
    ∧ ∀ calls : List String, buffer.lines.length ≤ MAX_LOG_LINES →
        (calls.foldl (fun b l => (addLogLine b l).1) buffer).lines.length ≤ MAX_LOG_LINES := by
  have key : ∀ (b : LogBuffer) (l : String),
      addLogLine b l =
        if MAX_LOG_LINES < b.lines.length + 1 then
          ({ b with lines := (b.lines ++ [l]).drop 1 }, true)
        else ({ b with lines := b.lines ++ [l] }, false) := by
    intro b l
    by_cases hc : MAX_LOG_LINES < b.lines.length + 1
    · rw [if_pos hc]
      have hcond : (b.lines ++ [l]).length > MAX_LOG_LINES := by simpa using hc
      simp only [addLogLine]
      rw [if_pos hcond]
    · rw [if_neg hc]
      have hcond : ¬((b.lines ++ [l]).length > MAX_LOG_LINES) := by simpa using hc
      simp only [addLogLine]
      rw [if_neg hcond]
  have step : ∀ (b : LogBuffer) (l : String),
      b.lines.length ≤ MAX_LOG_LINES →
        (addLogLine b l).1.lines.length ≤ MAX_LOG_LINES := by
    intro b l hb
    rw [key]
    by_cases hc : MAX_LOG_LINES < b.lines.length + 1
    · rw [if_pos hc]
      simpa using hb
    · rw [if_neg hc]
      simp
      omega
  refine ⟨step buffer line, ?_, ?_, ?_, ?_⟩
  · rw [key]
    by_cases hc : MAX_LOG_LINES < buffer.lines.length + 1
    · rw [if_pos hc]
      simp [hc]
    · rw [if_neg hc]
      simp [hc]
  · intro hev
    rw [key] at hev ⊢
    by_cases hc : MAX_LOG_LINES < buffer.lines.length + 1
    · rw [if_pos hc]
      have hne : buffer.lines ≠ [] := by
        intro h0
        rw [h0] at hc
        simp [MAX_LOG_LINES] at hc
      obtain ⟨a, t, ht⟩ := List.exists_cons_of_ne_nil hne
      simp [ht]
    · rw [if_neg hc] at hev
      simp at hev
  · intro hev
    rw [key] at hev ⊢
    by_cases hc : MAX_LOG_LINES < buffer.lines.length + 1
    · rw [if_pos hc] at hev
      simp at hev
    · rw [if_neg hc]
  · intro calls
    induction calls generalizing buffer with
    | nil => intro hb; simpa using hb
    | cons c cs ih =>
      intro hb
      simpa using ih (addLogLine buffer c).1 (step buffer c hb)

theorem cubicli_C5_witness :
    (addLogLine emptyLogBuffer "hello").1.lines.length ≤ MAX_LOG_LINES
    ∧ (addLogLine emptyLogBuffer "hello").1.lines = [] ++ ["hello"] := by
  have h := cubicli_C5_log_buffer_capacity emptyLogBuffer "hello"
  exact ⟨h.1 (by decide), h.2.2.2.1 (by decide)⟩

theorem performSearch_go_sorted (q : String) :
    ∀ (bufferLines : List String) (n : Nat),
      ((((List.enumFrom n bufferLines).map (fun p =>
            if includesStr (toLowerCase (stripAnsi p.2)) q then (p.1 : Int)
            else (-1 : Int))).filter
          (fun idx => decide (idx ≥ 0))).Pairwise (· < ·))
      ∧ ∀ x ∈ (((List.enumFrom n bufferLines).map (fun p =>
            if includesStr (toLowerCase (stripAnsi p.2)) q then (p.1 : Int)
            else (-1 : Int))).filter
          (fun idx => decide (idx ≥ 0))), (n : Int) ≤ x := by
  intro bufferLines
  induction bufferLines with
  | nil => intro n; simp
  | cons l ls ih =>
    intro n
    obtain ⟨ihp, ihb⟩ := ih (n + 1)
    by_cases hc : includesStr (toLowerCase (stripAnsi l)) q
    · simp only [List.enumFrom, List.map_cons, List.filter_cons, hc, if_true]
      have hkeep : decide ((n : Int) ≥ 0) = true := by simp
      rw [hkeep]
      simp only [if_true]
      refine ⟨List.pairwise_cons.mpr ⟨fun b hb => ?_, ihp⟩, fun x hx => ?_⟩
      · have := ihb b hb
        have : ((n : Int) + 1) ≤ b := by exact_mod_cast this
        omega
      · rcases List.mem_cons.mp hx with rfl | hx
        · omega
        · have := ihb x hx
          have h2 : ((n : Int) + 1) ≤ x := by exact_mod_cast this
          omega
    · have hval : (if includesStr (toLowerCase (stripAnsi l)) q then ((n : Nat) : Int)
          else (-1 : Int)) = -1 := by simp [hc]
      simp only [List.enumFrom, List.map_cons, List.filter_cons, hval]
      have hdrop : decide ((-1 : Int) ≥ 0) = false := by decide
      rw [hdrop]
      simp only [Bool.false_eq_true, if_false]
      refine ⟨ihp, fun x hx => ?_⟩
      have := ihb x hx
      have h2 : ((n : Int) + 1) ≤ x := by exact_mod_cast this
      omega

/-- C8: log search.  `performSearch` does case-insensitive substring
matching recomputed over the whole buffer: on the buffer
`["foo", "bar foo", "baz"]` with query `"foo"` the match indices are exactly
`[0, 1]`; the empty query always yields no matches; the produced match
indices are strictly ascending in buffer order for every buffer and query;
and matching is case-insensitive (mixed-case buffer and query still match,
e.g. `["FOO", "bar Foo", "baz"]` with `"fOo"` also yields `[0, 1]`). -/
theorem cubicli_C8_search_semantics :
    performSearch ["foo", "bar foo", "baz"] "foo" = [0, 1]
    ∧ (∀ bufferLines, performSearch bufferLines "" = [])
    ∧ (∀ bufferLines searchQuery,
        (performSearch bufferLines searchQuery).Pairwise (· < ·))
    ∧ performSearch ["FOO", "bar Foo", "baz"] "fOo" = [0, 1] := by
  refine ⟨by decide, fun bufferLines => rfl, ?_, by decide⟩
  intro bufferLines searchQuery
  by_cases hq : (toLowerCase searchQuery == "") = true
  · simp [performSearch, hq]
  · simp only [performSearch, hq]
    simp only [Bool.false_eq_true, if_false, List.enum]
    exact (performSearch_go_sorted (toLowerCase searchQuery) bufferLines 0).1

theorem lookup_cons_eq {α β : Type} [BEq α] (k a : α) (b : β) (t : List (α × β)) :
    List.lookup k ((a, b) :: t) = if k == a then some b else List.lookup k t := by
  cases h : k == a <;> simp [List.lookup, h]

theorem lookup_setAssoc_self {α β : Type} [BEq α] [LawfulBEq α]
    (l : List (α × β)) (k : α) (v : β) :
    (setAssoc l k v).lookup k = some v := by
  unfold setAssoc
  by_cases hany : l.any (fun p => p.1 == k) = true
  · rw [if_pos hany]
    revert hany
    induction l with
    | nil => intro hany; simp at hany
    | cons p r ih =>
      intro hany
      rcases p with ⟨a, b⟩
      rw [List.map_cons]
      by_cases ha : a = k
      · have hcond : ((a == k) = true) := by simp [ha]
        rw [if_pos hcond, lookup_cons_eq,
          if_pos (by simp only [beq_iff_eq] : ((k == k) = true))]
      · have hcond : ¬ ((a == k) = true) := by simp [ha]
        have hne : ¬ ((k == a) = true) := by
          simp only [beq_iff_eq]
          exact fun h => ha h.symm
        rw [if_neg hcond, lookup_cons_eq, if_neg hne]
        apply ih
        have ha2 : (a == k) = false := by simp [ha]
        simp only [List.any_cons, ha2, Bool.false_or] at hany
        exact hany
  · rw [if_neg hany]
    revert hany
    induction l with
    | nil =>
      intro _
      rw [List.nil_append, lookup_cons_eq,
        if_pos (by simp only [beq_iff_eq] : ((k == k) = true))]
    | cons p r ih =>
      intro hany
      rcases p with ⟨a, b⟩
      have ha : ¬ a = k := by
        intro h
        apply hany
        simp [List.any_cons, h]
      have hne : ¬ ((k == a) = true) := by
        simp only [beq_iff_eq]
        exact fun h => ha h.symm
      rw [List.cons_append, lookup_cons_eq, if_neg hne]
      apply ih
      intro hr
      apply hany
      simp only [List.any_cons, hr, Bool.or_true]

theorem lookup_setAssoc_ne {α β : Type} [BEq α] [LawfulBEq α]
    (l : List (α × β)) (k k' : α) (v : β) (hk : k' ≠ k) :
    (setAssoc l k v).lookup k' = l.lookup k' := by
  have hkk : ¬ ((k' == k) = true) := by
    simp only [beq_iff_eq]
    exact hk
  unfold setAssoc
  by_cases hany : l.any (fun p => p.1 == k) = true
  · rw [if_pos hany]
    clear hany
    induction l with
    | nil => rfl
    | cons p r ih =>
      rcases p with ⟨a, b⟩
      rw [List.map_cons]
      by_cases ha : a = k
      · have hcond : ((a == k) = true) := by simp [ha]
        have hka : ¬ ((k' == a) = true) := by
          simp only [beq_iff_eq]
          intro h
          exact hk (h.trans ha)
        rw [if_pos hcond, lookup_cons_eq, if_neg hkk, lookup_cons_eq, if_neg hka]
        exact ih
      · have hcond : ¬ ((a == k) = true) := by simp [ha]
        rw [if_neg hcond, lookup_cons_eq, lookup_cons_eq]
        by_cases hka : (k' == a) = true
        · rw [if_pos hka, if_pos hka]
        · rw [if_neg hka, if_neg hka]
          exact ih
  · rw [if_neg hany]
    clear hany
    induction l with
    | nil =>
      rw [List.nil_append, lookup_cons_eq, if_neg hkk]
    | cons p r ih =>
      rcases p with ⟨a, b⟩
      rw [List.cons_append, lookup_cons_eq, lookup_cons_eq]
      by_cases hka : (k' == a) = true
      · rw [if_pos hka, if_pos hka]
      · rw [if_neg hka, if_neg hka]
        exact ih

theorem lookup_eraseAssoc_self {α β : Type} [BEq α] [LawfulBEq α]
    (l : List (α × β)) (k : α) :
    (eraseAssoc l k).lookup k = none := by
  unfold eraseAssoc
  induction l with
  | nil => rfl
  | cons p r ih =>
    rcases p with ⟨a, b⟩
    rw [List.filter_cons]
    by_cases ha : a = k
    · have h0 : (!(a == k)) = false := by simp [ha]
      rw [h0]
      simp only [Bool.false_eq_true, if_false]
      exact ih
    · have h1 : (!(a == k)) = true := by simp [ha]
      have hne : ¬ ((k == a) = true) := by
        simp only [beq_iff_eq]
        exact fun h => ha h.symm
      rw [h1, if_pos rfl, lookup_cons_eq, if_neg hne]
      exact ih

theorem lookup_removeHandle (procs : List (String × List (String × Nat)))
    (projectAlias appName : String) :
    (removeHandle procs projectAlias appName).lookup projectAlias
      = (procs.lookup projectAlias).map (fun inner => eraseAssoc inner appName) := by
  unfold removeHandle
  induction procs with
  | nil => rfl
  | cons p r ih =>
    rcases p with ⟨a, inner⟩
    rw [List.map_cons]
    by_cases ha : a = projectAlias
    · have hcond : ((a == projectAlias) = true) := by simp [ha]
      have hpa : ((projectAlias == a) = true) := by
        simp only [beq_iff_eq]
        exact ha.symm
      rw [if_pos hcond, lookup_cons_eq, if_pos hpa, lookup_cons_eq, if_pos hpa]
      rfl
    · have hcond : ¬ ((a == projectAlias) = true) := by simp [ha]
      have hpa : ¬ ((projectAlias == a) = true) := by
        simp only [beq_iff_eq]
        exact fun h => ha h.symm
      rw [if_neg hcond, lookup_cons_eq, if_neg hpa, lookup_cons_eq, if_neg hpa]
      exact ih

/-- C6: the exit continuation registered by `startApp`.  When the app's
record still exists in the state loaded at exit time, its status becomes
`stopped` for exit code 0 and `error` for any non-zero code, while the
record's siblings, the project's other fields, and every other project's
entry are untouched (the handler always works on the freshly re-loaded
state, so concurrent writes from other apps are not clobbered: everything
except that one record is passed through unchanged).  When the project or
the record no longer exists, the state is not written at all.  The
in-memory process handle is removed in every case: after
`this.processes.get(alias)?.delete(app)` the handle map has no entry for
that app. -/
theorem cubicli_C6_exit_transition (code : Int) (projectAlias appName : String)
    (currentState : AppStateV2) :
    (∀ pState info,
        currentState.activeProjects.lookup projectAlias = some pState →
        pState.processes.lookup appName = some info →
        ∃ pState2,
          (exitHandler code projectAlias appName currentState).activeProjects.lookup
              projectAlias = some pState2
          ∧ (code = 0 →
              pState2.processes.lookup appName
                = some { info with status := Status.stopped })
          ∧ (code ≠ 0 →
              pState2.processes.lookup appName
                = some { info with status := Status.error })
          ∧ pState2.dopplerConfig = pState.dopplerConfig
          ∧ pState2.startedAt = pState.startedAt
          ∧ ∀ other, other ≠ appName →
              pState2.processes.lookup other = pState.processes.lookup other)
    ∧ (∀ otherAlias, otherAlias ≠ projectAlias →
        (exitHandler code projectAlias appName currentState).activeProjects.lookup
            otherAlias
          = currentState.activeProjects.lookup otherAlias)
    ∧ (currentState.activeProjects.lookup projectAlias = none →
        exitHandler code projectAlias appName currentState = currentState)
    ∧ (∀ pState, currentState.activeProjects.lookup projectAlias = some pState →
        pState.processes.lookup appName = none →
        exitHandler code projectAlias appName currentState = currentState)
    ∧ (∀ procs inner,
        (removeHandle procs projectAlias appName).lookup projectAlias = some inner →
        inner.lookup appName = none) := by
  refine ⟨?_, ?_, ?_, ?_, ?_⟩
  · intro pState info h1 h2
    simp only [exitHandler, h1, h2]
    refine ⟨_, lookup_setAssoc_self _ _ _, ?_, ?_, rfl, rfl, ?_⟩
    · intro hc
      rw [lookup_setAssoc_self]
      simp [hc]
    · intro hc
      have hcb : (code == 0) = false := by simp [hc]
      rw [lookup_setAssoc_self]
      simp [hcb]
    · intro other ho
      exact lookup_setAssoc_ne _ _ _ _ ho
  · intro otherAlias h
    cases h1 : currentState.activeProjects.lookup projectAlias with
    | none => simp [exitHandler, h1]
    | some pState =>
      cases h2 : pState.processes.lookup appName with
      | none => simp [exitHandler, h1, h2]
      | some info =>
        simp only [exitHandler, h1, h2]
        exact lookup_setAssoc_ne _ _ _ _ h
  · intro h1
    simp [exitHandler, h1]
  · intro pState h1 h2
    simp [exitHandler, h1, h2]
  · intro procs inner h
    rw [lookup_removeHandle] at h
    cases hp : procs.lookup projectAlias with
    | none => rw [hp] at h; simp at h
    | some inner0 =>
      rw [hp] at h
      have h2 : some (eraseAssoc inner0 appName) = some inner := h
      cases h2
      exact lookup_eraseAssoc_self _ _

theorem cubicli_C6_witness :
    ∃ pState2,
      (exitHandler 3 "cubic" "api"
          ⟨"dev", [("cubic", ⟨"dev", none, [("api", ⟨7, 5555, Status.running⟩)]⟩)]⟩).activeProjects.lookup
          "cubic" = some pState2
      ∧ pState2.processes.lookup "api" = some ⟨7, 5555, Status.error⟩ := by
  obtain ⟨p2, hp, _, herr, _⟩ :=
    (cubicli_C6_exit_transition 3 "cubic" "api"
      ⟨"dev", [("cubic", ⟨"dev", none, [("api", ⟨7, 5555, Status.running⟩)]⟩)]⟩).1
      ⟨"dev", none, [("api", ⟨7, 5555, Status.running⟩)]⟩ ⟨7, 5555, Status.running⟩
      (by decide) (by decide)
  exact ⟨p2, hp, herr (by decide)⟩

/-- Counterexample to C4 as stated: running `startProject` on the first
configured project from an empty persisted state, the spawned apps' records
are not in the durable state immediately after each spawn — the predicate
`spawnsPersistedImmediately` is false on the trace, because the only
`saveState` happens after all three spawns. -/
theorem cubicli_C4_counterexample :
    spawnsPersistedImmediately
      ⟨"dev", []⟩
      (startProjectTrace (fun _ => 1000)
        ⟨"cubic", "cubic", "/Users/guypinchuk/Projects/cubic", 0⟩
        "dev" (some "2026-01-01T00:00:00.000Z") ⟨"dev", []⟩).1 = false := by
  decide

/-- C4 (amended): `startApp` records `{pid, port, status: 'starting'}` only
in the in-memory `projectState` object; persistence of a project start is
batched, not immediate: `startProject` performs exactly one `saveState`, as
its last operation after every app of the project has been spawned, and that
single save does contain the `{pid, port, status: 'starting'}` record of
every app.  (So between a spawn and the save, a concurrent stop loading the
persisted state can still observe "no record exists yet", which the
counterexample above exhibits at a concrete input.) -/
theorem cubicli_C4_single_batched_save (pids : String → Nat) (project : Project)
    (dopplerConfig : String) (startedAt : Option String) (st : AppStateV2) :
    ((startProjectTrace pids project dopplerConfig startedAt st).1.filter isSave)
        = [Event.save (startProjectTrace pids project dopplerConfig startedAt st).2]
    ∧ (startProjectTrace pids project dopplerConfig startedAt st).1.getLast?
        = some (Event.save (startProjectTrace pids project dopplerConfig startedAt st).2)
    ∧ ∀ app ∈ APPS,
        hasStartingRecord (startProjectTrace pids project dopplerConfig startedAt st).2
          project.«alias» app.name (pids app.name) (getPortForApp app project) = true := by
  refine ⟨rfl, rfl, ?_⟩
  intro app happ
  simp only [startProjectTrace, APPS, List.foldl_cons, List.foldl_nil, startAppStep,
    hasStartingRecord]
  rw [lookup_setAssoc_self]
  fin_cases happ
  · rw [Option.some_bind,
      lookup_setAssoc_ne _ _ _ _ (by decide : ("api" : String) ≠ "mycelium"),
      lookup_setAssoc_ne _ _ _ _ (by decide : ("api" : String) ≠ "client-app"),
      lookup_setAssoc_self]
    simp [APPS]
  · rw [Option.some_bind,
      lookup_setAssoc_ne _ _ _ _ (by decide : ("client-app" : String) ≠ "mycelium"),
      lookup_setAssoc_self]
    simp [APPS]
  · rw [Option.some_bind, lookup_setAssoc_self]
    simp [APPS]

theorem cubicli_C4_amended_witness :
    hasStartingRecord
      (startProjectTrace (fun _ => 1000)
        ⟨"cubic", "cubic", "/Users/guypinchuk/Projects/cubic", 0⟩
        "dev" none ⟨"dev", []⟩).2
      "cubic" "api" 1000 5555 = true := by
  have h := (cubicli_C4_single_batched_save (fun _ => 1000)
    ⟨"cubic", "cubic", "/Users/guypinchuk/Projects/cubic", 0⟩
    "dev" none ⟨"dev", []⟩).2.2
    ⟨"api", 5555, "nx serve api", "MICROSERVICE_API_PORT", "MICROSERVICE_API_HOST"⟩
    (by decide)
  exact h

theorem makeLogKey_ne (projectAlias n1 n2 : String) (h : n1 ≠ n2) :
    makeLogKey projectAlias n1 ≠ makeLogKey projectAlias n2 := by
  intro he
  apply h
  have hd := congrArg String.data he
  simp only [makeLogKey, String.data_append] at hd
  have h1 := List.append_cancel_left hd
  cases n1
  cases n2
  simp at h1
  simp [h1]

theorem getLogFilePath_ne (projectAlias n1 n2 : String) (h : n1 ≠ n2) :
    getLogFilePath projectAlias n1 ≠ getLogFilePath projectAlias n2 := by
  intro he
  apply h
  have hd := congrArg String.data he
  simp only [getLogFilePath, String.data_append] at hd
  have h1 := List.append_cancel_right hd
  have h2 := List.append_cancel_left h1
  cases n1
  cases n2
  simp at h2
  simp [h2]

/-- C9: `clearLogBuffer(project, app)` resets exactly that pair's in-memory
buffer to the empty buffer (no lines, no search matches) and writes the
empty string to that pair's log file, leaving every other buffer key and
file path unchanged (and the nine configured (project, app) pairs all have
pairwise-distinct buffer keys, so for configured pairs "other key" is the
same as "other pair"); `startProject` invokes it on every app of the
project, so after its clearing phase every (project, app) buffer of the
project is empty in memory and on disk, and in the `startProject` trace all
log clears happen before any spawn. -/
theorem cubicli_C9_clear_log_frame :
    (∀ (logBuffers : List (String × LogBuffer)) (logFiles : List (String × String))
        (projectAlias appName : String),
        (clearLogBuffer logBuffers logFiles projectAlias appName).1.lookup
            (makeLogKey projectAlias appName) = some emptyLogBuffer
        ∧ (clearLogBuffer logBuffers logFiles projectAlias appName).2.lookup
            (getLogFilePath projectAlias appName) = some "")
    ∧ (∀ (logBuffers : List (String × LogBuffer)) (logFiles : List (String × String))
        (projectAlias appName k : String),
        k ≠ makeLogKey projectAlias appName →
        (clearLogBuffer logBuffers logFiles projectAlias appName).1.lookup k
          = logBuffers.lookup k)
    ∧ (∀ (logBuffers : List (String × LogBuffer)) (logFiles : List (String × String))
        (projectAlias appName f : String),
        f ≠ getLogFilePath projectAlias appName →
        (clearLogBuffer logBuffers logFiles projectAlias appName).2.lookup f
          = logFiles.lookup f)
    ∧ (∀ (logBuffers : List (String × LogBuffer)) (logFiles : List (String × String))
        (projectAlias : String), ∀ app ∈ APPS,
        (startProjectClears logBuffers logFiles projectAlias).1.lookup
            (makeLogKey projectAlias app.name) = some emptyLogBuffer
        ∧ (startProjectClears logBuffers logFiles projectAlias).2.lookup
            (getLogFilePath projectAlias app.name) = some "")
    ∧ (∀ p1 ∈ PROJECTS, ∀ p2 ∈ PROJECTS, ∀ a1 ∈ APPS, ∀ a2 ∈ APPS,
        (p1.«alias» ≠ p2.«alias» ∨ a1.name ≠ a2.name) →
          makeLogKey p1.«alias» a1.name ≠ makeLogKey p2.«alias» a2.name)
    ∧ (∀ (pids : String → Nat) (project : Project) (dopplerConfig : String)
        (startedAt : Option String) (st : AppStateV2),
        noClearAfterSpawn
            (startProjectTrace pids project dopplerConfig startedAt st).1 = true
        ∧ ∀ app ∈ APPS,
            Event.clearLog project.«alias» app.name
              ∈ (startProjectTrace pids project dopplerConfig startedAt st).1) := by
  refine ⟨?_, ?_, ?_, ?_, ?_, ?_⟩
  · intro logBuffers logFiles projectAlias appName
    exact ⟨lookup_setAssoc_self _ _ _, lookup_setAssoc_self _ _ _⟩
  · intro logBuffers logFiles projectAlias appName k hk
    exact lookup_setAssoc_ne _ _ _ _ hk
  · intro logBuffers logFiles projectAlias appName f hf
    exact lookup_setAssoc_ne _ _ _ _ hf
  · intro logBuffers logFiles projectAlias app happ
    simp only [startProjectClears, APPS, List.foldl_cons, List.foldl_nil, clearLogBuffer]
    fin_cases happ
    · constructor
      · rw [lookup_setAssoc_ne _ _ _ _ (makeLogKey_ne projectAlias _ _ (by decide)),
          lookup_setAssoc_ne _ _ _ _ (makeLogKey_ne projectAlias _ _ (by decide)),
          lookup_setAssoc_self]
      · rw [lookup_setAssoc_ne _ _ _ _ (getLogFilePath_ne projectAlias _ _ (by decide)),
          lookup_setAssoc_ne _ _ _ _ (getLogFilePath_ne projectAlias _ _ (by decide)),
          lookup_setAssoc_self]
    · constructor
      · rw [lookup_setAssoc_ne _ _ _ _ (makeLogKey_ne projectAlias _ _ (by decide)),
          lookup_setAssoc_self]
      · rw [lookup_setAssoc_ne _ _ _ _ (getLogFilePath_ne projectAlias _ _ (by decide)),
          lookup_setAssoc_self]
    · exact ⟨lookup_setAssoc_self _ _ _, lookup_setAssoc_self _ _ _⟩
  · decide
  · intro pids project dopplerConfig startedAt st
    refine ⟨rfl, ?_⟩
    intro app happ
    fin_cases happ <;> simp [startProjectTrace, APPS, startAppStep]

theorem cubicli_C9_witness :
    (startProjectClears [] [] "cubic").1.lookup (makeLogKey "cubic" "api")
        = some emptyLogBuffer
    ∧ (clearLogBuffer [] [] "cubic" "api").1.lookup "other:key"
        = ([] : List (String × LogBuffer)).lookup "other:key" := by
  constructor
  · exact (cubicli_C9_clear_log_frame.2.2.2.1 [] [] "cubic"
      ⟨"api", 5555, "nx serve api", "MICROSERVICE_API_PORT", "MICROSERVICE_API_HOST"⟩
      (by decide)).1
  · exact cubicli_C9_clear_log_frame.2.1 [] [] "cubic" "api" "other:key" (by decide)
